import Mathlib

set_option linter.unusedSectionVars false

/-!
Verification of the Standards-Based Circuit Sizing Engine of `src/app.py`
(class `SGProEngine`): design-current computation, breaker (trip/frame)
selection, dual-constraint cable selection with voltage drop, and tray
containment sizing.

Modelling conventions:
* Python floats are idealised as elements of an arbitrary linear ordered
  field `K`; `math.sqrt` is passed in as an explicit function parameter
  `sqrt : K → K`, so all definitions stay polymorphic and executable.
  Instantiating `K := ℝ`, `sqrt := Real.sqrt` gives the exact-real
  idealisation of the source; instantiating `K := ℚ` gives decidable
  evaluation for witnesses.
* Catalog dictionaries (Python `dict`, insertion-ordered) become
  association lists in the same order as the source.
* Fallible operations (dict miss, division by zero) are modelled with
  `Option`: `none` stands for the Python exception / `None` result.
-/

namespace SGPro

/-! ## StandardsCatalog: reference data from `SGProEngine.__init__` -/

/-- Standard breaker frame ratings (`self.standard_frames`). -/
def standard_frames : List ℚ :=
  [63, 100, 125, 160, 250, 400, 630, 800, 1000, 1250, 1600, 2000, 2500, 3200, 4000]

/-- Standard breaker trip ratings (`self.standard_trips`). -/
def standard_trips : List ℚ :=
  [6, 10, 16, 20, 32, 40, 50, 63, 80, 100, 125, 160, 200, 250, 320, 400, 500, 630, 800,
   1000, 1250, 1600, 2000, 2500, 3200, 4000]

/-- Cable ampacity table `self.cable_db`: size (mm²) ↦ Iz (A). -/
def cable_db : List (ℚ × ℚ) :=
  [(1.5, 25), (2.5, 33), (4, 43), (6, 56), (10, 77), (16, 102), (25, 135), (35, 166),
   (50, 201), (70, 255), (95, 309), (120, 358), (150, 410), (185, 469), (240, 551),
   (300, 627), (400, 750), (500, 860), (630, 980)]

/-- Cable outer-diameter table `self.cable_diameters`: size (mm²) ↦ diameter (mm). -/
def cable_diameters : List (ℚ × ℚ) :=
  [(1.5, 12), (2.5, 13), (4, 14), (6, 15), (10, 17), (16, 19), (25, 22), (35, 24),
   (50, 27), (70, 30), (95, 33), (120, 36), (150, 39), (185, 42), (240, 46), (300, 50),
   (400, 55), (500, 60), (630, 65)]

/-- Cable impedance table `self.cable_impedance`: size ↦ (r, x) in Ω/km. -/
def cable_impedance : List (ℚ × ℚ × ℚ) :=
  [(1.5, 14.8, 0.145), (2.5, 8.91, 0.135), (4, 5.57, 0.125), (6, 3.71, 0.120),
   (10, 2.24, 0.115), (16, 1.41, 0.110), (25, 0.889, 0.105), (35, 0.641, 0.100),
   (50, 0.473, 0.100), (70, 0.328, 0.095), (95, 0.236, 0.095), (120, 0.188, 0.090),
   (150, 0.153, 0.090), (185, 0.124, 0.090), (240, 0.0991, 0.085), (300, 0.0795, 0.085),
   (400, 0.0625, 0.085), (500, 0.0495, 0.085), (630, 0.0395, 0.085)]

/-- Cable-tray fill factors `self.tray_fill_factors`. -/
def tray_fill_factors : List (String × ℚ) :=
  [("perforated", 0.4), ("ladder", 0.4), ("solid", 0.3), ("wire_mesh", 0.35)]

/-- Standard tray widths `self.standard_tray_sizes` (mm). -/
def standard_tray_sizes : List ℚ :=
  [50, 100, 150, 200, 300, 400, 450, 500, 600, 750, 900]

variable {K : Type} [LinearOrderedField K] [DecidableEq K]

/-- Association-list lookup for the catalog dictionaries (Python `dict[key]` /
`key in dict`), with a propositional key test. -/
def alookup {A B : Type} [DecidableEq A] (x : A) : List (A × B) → Option B
  | [] => none
  | (k, v) :: t => if x = k then some v else alookup x t

/-! ## BreakerSelector -/

/-- First element of `l` that is ≥ `t`, else `dflt`; embeds the Python idiom
`next((x for x in l if x >= t), dflt)` used by `get_at_af`. -/
def next_ge (l : List ℚ) (dflt : ℚ) (t : K) : ℚ :=
  (l.find? (fun x : ℚ => decide (t ≤ ((x : ℚ) : K)))).getD dflt

/-- Embeds `SGProEngine.get_at_af`: trip = first standard trip ≥ ib (default 4000),
frame = first standard frame ≥ trip (default 4000). -/
def get_at_af (ib : K) : ℚ × ℚ :=
  let trip := next_ge standard_trips 4000 ib
  let frame := next_ge standard_frames 4000 (trip : ℚ)
  (trip, frame)

/-- Embeds the breaker classification expression of the MSB page:
`b_type = "ACB" if af >= 800 else "MCCB" if af > 63 else "MCB"`. -/
def b_type (af : ℚ) : String :=
  if 800 ≤ af then "ACB" else if 63 < af then "MCCB" else "MCB"

/-! ## CurrentCalculator -/

/-- Embeds the design-current expression of the MSB page (line 1978 of
`src/app.py`): `ib = (load_kw * 1000) / (math.sqrt(3) * 400 * pf)`.
The computation performs no parameter validation; Python raises an
uncontrolled `ZeroDivisionError` exactly when the denominator is zero,
modelled here by the `none` branch. -/
def msb_design_current (sqrt : K → K) (load_kw pf : K) : Option K :=
  if sqrt 3 * 400 * pf = 0 then none
  else some (load_kw * 1000 / (sqrt 3 * 400 * pf))

/-! ## CableSelector -/

/-- Embeds `SGProEngine.calculate_voltage_drop`. Returns `none` when the size
is missing from the impedance table (Python returns `(None, None)`); otherwise
`some (v_drop, v_drop_percent)`. The percentage divides by the hard-coded
reference `400`. -/
def calculate_voltage_drop (sqrt : K → K) (cable_size : ℚ) (current length pf : K) :
    Option (K × K) :=
  match alookup cable_size cable_impedance with
  | none => none
  | some rx =>
    let sin_phi := sqrt (1 - pf ^ 2)
    let v_drop_per_km := sqrt 3 * current * ((rx.1 : K) * pf + (rx.2 : K) * sin_phi)
    let v_drop := v_drop_per_km * length / 1000
    let v_drop_percent := v_drop / 400 * 100
    some (v_drop, v_drop_percent)

/-- Voltage-drop percent produced by `calculate_voltage_drop` for a size
(0 when the size is missing from the impedance table); a projection helper
used to state filter conditions. -/
def vd_percent_of (sqrt : K → K) (cable_size : ℚ) (current length pf : K) : K :=
  ((calculate_voltage_drop sqrt cable_size current length pf).map Prod.snd).getD 0

/-- A cable candidate dict `{"size": ..., "iz": ..., "vd": ..., "vd_percent": ...}`
built inside `select_cable_with_vd`. -/
structure Candidate (K : Type) where
  size : ℚ
  iz : ℚ
  vd : K
  vdPercent : K
deriving DecidableEq, Repr

/-- Result dict of `select_cable_with_vd`: a plain candidate, a candidate with a
`"warning"` key (the warning text interpolates floats and is not modelled), an
`{"error": ...}` dict, or an uncontrolled Python fault (`fault` only arises from
the dead branch where the fallback size misses the impedance table). -/
inductive CableResult (K : Type) where
  | ok (c : Candidate K)
  | warn (c : Candidate K)
  | err (msg : String)
  | fault
deriving DecidableEq, Repr

/-- One step of Python `min(l, key=lambda x: x["size"])`: keep the current
minimum, replacing it only on strictly smaller key (ties keep the first). -/
def min_step {α : Type} (key : α → ℚ) (acc : Option α) (c : α) : Option α :=
  match acc with
  | none => some c
  | some m => if key c < key m then some c else some m

/-- Python `min(l, key=...)` over a possibly-empty list (`none` on empty). -/
def min_by {α : Type} (key : α → ℚ) (l : List α) : Option α :=
  l.foldl (min_step key) none

/-- One step of Python `max(l, key=...)`: replace only on strictly larger key. -/
def max_step {α : Type} (key : α → ℚ) (acc : Option α) (c : α) : Option α :=
  match acc with
  | none => some c
  | some m => if key m < key c then some c else some m

/-- Python `max(l, key=...)` over a possibly-empty list (`none` on empty). -/
def max_by {α : Type} (key : α → ℚ) (l : List α) : Option α :=
  l.foldl (max_step key) none

/-- One iteration of the collection loop of `select_cable_with_vd`: a table
entry `(size, iz)` contributes a candidate iff `iz >= ib * 1.25` and the
computed percent passes `if vd_percent and vd_percent <= max_vd_percent` —
Python truthiness makes a percent of exactly 0 (and the `None` of a failed
lookup) fail that test. -/
def cable_candidate (sqrt : K → K) (ib length pf max_vd : K) (p : ℚ × ℚ) :
    Option (Candidate K) :=
  if ib * 1.25 ≤ (p.2 : K) then
    match calculate_voltage_drop sqrt p.1 ib length pf with
    | some vdp =>
      if vdp.2 = 0 then none
      else if vdp.2 ≤ max_vd then some ⟨p.1, p.2, vdp.1, vdp.2⟩ else none
    | none => none
  else none

/-- The `suitable_cables` list built by `select_cable_with_vd`. -/
def suitable_cables (sqrt : K → K) (ib length pf max_vd : K) : List (Candidate K) :=
  cable_db.filterMap (cable_candidate sqrt ib length pf max_vd)

/-- Embeds `SGProEngine.select_cable_with_vd`: smallest suitable candidate if
any; otherwise the largest size passing the ampacity filter alone, with its
computed drop and a warning; otherwise the error dict. -/
def select_cable_with_vd (sqrt : K → K) (ib length pf max_vd : K) : CableResult K :=
  match min_by Candidate.size (suitable_cables sqrt ib length pf max_vd) with
  | some best => .ok best
  | none =>
    match max_by Prod.fst (cable_db.filter (fun p => decide (ib * 1.25 ≤ ((p.2 : ℚ) : K)))) with
    | some largest =>
      match calculate_voltage_drop sqrt largest.1 ib length pf with
      | some vdp => .warn ⟨largest.1, largest.2, vdp.1, vdp.2⟩
      | none => .fault
    | none => .err "No cable found. Multiple runs required."

/-! ## ContainmentSizer (tray branch) -/

/-- Result record for tray sizing: total cable area, area with spare,
required width, and the selected standard width (`none` when even the largest
standard tray is too small). -/
structure TrayResult (K : Type) where
  totalArea : K
  totalAreaWithSpare : K
  requiredWidth : K
  selectedWidth : Option ℚ
deriving DecidableEq, Repr

/-- Modelled from the spec: the repository's source defines the tray
fill-factor table and the standard tray widths but contains no
containment-sizing function, so the tray branch of `sizeContainment` is
modelled from spec §4.4: per-cable area `π·(diameter/2)²` from the diameter
catalog, `totalArea` their sum, `totalAreaWithSpare = totalArea·(1 +
sparePercent/100)`, `requiredWidth = totalAreaWithSpare/(depthMm·fillFactor)`,
and the first standard width ≥ `requiredWidth` is selected. `pi` is passed as
an explicit parameter (instantiate with `Real.pi`). `none` when the tray kind
or a cable size is missing from the catalogs. -/
def sizeTrayContainment (pi : K) (cableSizes : List ℚ) (kind : String)
    (sparePercent depthMm : K) : Option (TrayResult K) :=
  match alookup kind tray_fill_factors, cableSizes.mapM (fun s => alookup s cable_diameters) with
  | some ff, some ds =>
    let totalArea := (ds.map (fun d => pi * (((d : ℚ) : K) / 2) ^ 2)).sum
    let withSpare := totalArea * (1 + sparePercent / 100)
    let reqW := withSpare / (depthMm * (ff : K))
    some ⟨totalArea, withSpare, reqW,
      standard_tray_sizes.find? (fun w => decide (reqW ≤ ((w : ℚ) : K)))⟩
  | _, _ => none

/-! ## Helper lemmas: Python min/max folds -/

theorem foldl_min_step_spec {α : Type} (key : α → ℚ) (l : List α) (a : α) :
    ∃ m, l.foldl (min_step key) (some a) = some m ∧ (m = a ∨ m ∈ l) ∧ key m ≤ key a ∧
      ∀ c ∈ l, key m ≤ key c := by
  induction l generalizing a with
  | nil => exact ⟨a, rfl, Or.inl rfl, le_refl _, by simp⟩
  | cons b t ih =>
    rw [List.foldl_cons]
    by_cases h : key b < key a
    · obtain ⟨m, hm, hmem, hle, hall⟩ := ih b
      refine ⟨m, ?_, ?_, le_trans hle h.le, ?_⟩
      · simpa [min_step, if_pos h] using hm
      · rcases hmem with rfl | hmt
        · exact Or.inr (List.mem_cons_self _ _)
        · exact Or.inr (List.mem_cons_of_mem _ hmt)
      · intro c hc
        rcases List.mem_cons.mp hc with rfl | hct
        · exact hle
        · exact hall c hct
    · obtain ⟨m, hm, hmem, hle, hall⟩ := ih a
      refine ⟨m, ?_, ?_, hle, ?_⟩
      · simpa [min_step, if_neg h] using hm
      · rcases hmem with rfl | hmt
        · exact Or.inl rfl
        · exact Or.inr (List.mem_cons_of_mem _ hmt)
      · intro c hc
        rcases List.mem_cons.mp hc with rfl | hct
        · exact le_trans hle (not_lt.mp h)
        · exact hall c hct

theorem min_by_spec {α : Type} (key : α → ℚ) {l : List α} (h : l ≠ []) :
    ∃ m, min_by key l = some m ∧ m ∈ l ∧ ∀ c ∈ l, key m ≤ key c := by
  cases l with
  | nil => exact absurd rfl h
  | cons b t =>
    obtain ⟨m, hm, hmem, hle, hall⟩ := foldl_min_step_spec key t b
    refine ⟨m, ?_, ?_, ?_⟩
    · simpa [min_by, min_step] using hm
    · rcases hmem with rfl | hmt
      · exact List.mem_cons_self _ _
      · exact List.mem_cons_of_mem _ hmt
    · intro c hc
      rcases List.mem_cons.mp hc with rfl | hct
      · exact hle
      · exact hall c hct

theorem min_by_eq_none {α : Type} (key : α → ℚ) (l : List α) :
    min_by key l = none ↔ l = [] := by
  cases l with
  | nil => simp [min_by]
  | cons b t =>
    obtain ⟨m, hm, -, -, -⟩ := foldl_min_step_spec key t b
    constructor
    · intro hnone
      rw [min_by, List.foldl_cons] at hnone
      have : List.foldl (min_step key) (some b) t = none := by
        simpa [min_step] using hnone
      rw [this] at hm
      exact absurd hm (by simp)
    · intro h
      exact absurd h (by simp)

theorem foldl_max_step_spec {α : Type} (key : α → ℚ) (l : List α) (a : α) :
    ∃ m, l.foldl (max_step key) (some a) = some m ∧ (m = a ∨ m ∈ l) ∧ key a ≤ key m ∧
      ∀ c ∈ l, key c ≤ key m := by
  induction l generalizing a with
  | nil => exact ⟨a, rfl, Or.inl rfl, le_refl _, by simp⟩
  | cons b t ih =>
    rw [List.foldl_cons]
    by_cases h : key a < key b
    · obtain ⟨m, hm, hmem, hle, hall⟩ := ih b
      refine ⟨m, ?_, ?_, le_trans h.le hle, ?_⟩
      · simpa [max_step, if_pos h] using hm
      · rcases hmem with rfl | hmt
        · exact Or.inr (List.mem_cons_self _ _)
        · exact Or.inr (List.mem_cons_of_mem _ hmt)
      · intro c hc
        rcases List.mem_cons.mp hc with rfl | hct
        · exact hle
        · exact hall c hct
    · obtain ⟨m, hm, hmem, hle, hall⟩ := ih a
      refine ⟨m, ?_, ?_, hle, ?_⟩
      · simpa [max_step, if_neg h] using hm
      · rcases hmem with rfl | hmt
        · exact Or.inl rfl
        · exact Or.inr (List.mem_cons_of_mem _ hmt)
      · intro c hc
        rcases List.mem_cons.mp hc with rfl | hct
        · exact le_trans (not_lt.mp h) hle
        · exact hall c hct

theorem max_by_spec {α : Type} (key : α → ℚ) {l : List α} (h : l ≠ []) :
    ∃ m, max_by key l = some m ∧ m ∈ l ∧ ∀ c ∈ l, key c ≤ key m := by
  cases l with
  | nil => exact absurd rfl h
  | cons b t =>
    obtain ⟨m, hm, hmem, hle, hall⟩ := foldl_max_step_spec key t b
    refine ⟨m, ?_, ?_, ?_⟩
    · simpa [max_by, max_step] using hm
    · rcases hmem with rfl | hmt
      · exact List.mem_cons_self _ _
      · exact List.mem_cons_of_mem _ hmt
    · intro c hc
      rcases List.mem_cons.mp hc with rfl | hct
      · exact hle
      · exact hall c hct

theorem max_by_eq_none {α : Type} (key : α → ℚ) (l : List α) :
    max_by key l = none ↔ l = [] := by
  cases l with
  | nil => simp [max_by]
  | cons b t =>
    obtain ⟨m, hm, -, -, -⟩ := foldl_max_step_spec key t b
    constructor
    · intro hnone
      rw [max_by, List.foldl_cons] at hnone
      have : List.foldl (max_step key) (some b) t = none := by
        simpa [max_step] using hnone
      rw [this] at hm
      exact absurd hm (by simp)
    · intro h
      exact absurd h (by simp)

/-! ## Helper lemmas: first element ≥ target in an ascending list -/

theorem next_ge_mem_or_default (l : List ℚ) (dflt : ℚ) (t : K) :
    next_ge l dflt t ∈ l ∨ next_ge l dflt t = dflt := by
  unfold next_ge
  cases hf : l.find? (fun x : ℚ => decide (t ≤ ((x : ℚ) : K))) with
  | none => simp
  | some a => exact Or.inl (by simpa using List.mem_of_find?_eq_some hf)

theorem next_ge_spec (l : List ℚ) (dflt : ℚ) (t : K) (hs : l.Sorted (· ≤ ·))
    (h : ∃ x ∈ l, t ≤ ((x : ℚ) : K)) :
    next_ge l dflt t ∈ l ∧ t ≤ ((next_ge l dflt t : ℚ) : K) ∧
      ∀ x ∈ l, t ≤ ((x : ℚ) : K) → next_ge l dflt t ≤ x := by
  induction l with
  | nil => simp at h
  | cons b u ih =>
    rw [List.sorted_cons] at hs
    by_cases hb : t ≤ ((b : ℚ) : K)
    · have hval : next_ge (b :: u) dflt t = b := by
        unfold next_ge
        rw [List.find?_cons_of_pos _ (by simpa using hb)]
        rfl
      rw [hval]
      refine ⟨List.mem_cons_self _ _, hb, ?_⟩
      intro x hx _
      rcases List.mem_cons.mp hx with rfl | hxu
      · exact le_refl _
      · exact hs.1 x hxu
    · have hval : next_ge (b :: u) dflt t = next_ge u dflt t := by
        unfold next_ge
        rw [List.find?_cons_of_neg _ (by simpa using hb)]
      have hu : ∃ x ∈ u, t ≤ ((x : ℚ) : K) := by
        obtain ⟨x, hx, hxt⟩ := h
        rcases List.mem_cons.mp hx with rfl | hxu
        · exact absurd hxt hb
        · exact ⟨x, hxu, hxt⟩
      obtain ⟨h1, h2, h3⟩ := ih hs.2 hu
      rw [hval]
      refine ⟨List.mem_cons_of_mem _ h1, h2, ?_⟩
      intro x hx hxt
      rcases List.mem_cons.mp hx with rfl | hxu
      · exact absurd hxt hb
      · exact h3 x hxu hxt

theorem next_ge_mono (l : List ℚ) (dflt : ℚ) (hs : l.Sorted (· ≤ ·))
    (hd : ∀ x ∈ l, x ≤ dflt) (t1 t2 : K) (h12 : t1 ≤ t2) :
    next_ge l dflt t1 ≤ next_ge l dflt t2 := by
  induction l with
  | nil => simp [next_ge]
  | cons b u ih =>
    rw [List.sorted_cons] at hs
    by_cases h2 : t2 ≤ ((b : ℚ) : K)
    · have h1 : t1 ≤ ((b : ℚ) : K) := le_trans h12 h2
      unfold next_ge
      rw [List.find?_cons_of_pos _ (by simpa using h1),
        List.find?_cons_of_pos _ (by simpa using h2)]
    · have hval2 : next_ge (b :: u) dflt t2 = next_ge u dflt t2 := by
        unfold next_ge
        rw [List.find?_cons_of_neg _ (by simpa using h2)]
      rw [hval2]
      by_cases h1 : t1 ≤ ((b : ℚ) : K)
      · have hval1 : next_ge (b :: u) dflt t1 = b := by
          unfold next_ge
          rw [List.find?_cons_of_pos _ (by simpa using h1)]
          rfl
        rw [hval1]
        rcases next_ge_mem_or_default u dflt t2 with hm | hm
        · exact hs.1 _ hm
        · rw [hm]
          exact hd b (List.mem_cons_self _ _)
      · have hval1 : next_ge (b :: u) dflt t1 = next_ge u dflt t1 := by
          unfold next_ge
          rw [List.find?_cons_of_neg _ (by simpa using h1)]
        rw [hval1]
        exact ih hs.2 (fun x hx => hd x (List.mem_cons_of_mem _ hx))

theorem standard_trips_sorted : standard_trips.Sorted (· ≤ ·) := by
  unfold standard_trips
  decide

theorem standard_frames_sorted : standard_frames.Sorted (· ≤ ·) := by
  unfold standard_frames
  decide

theorem standard_trips_le_4000 : ∀ x ∈ standard_trips, x ≤ 4000 := by
  unfold standard_trips
  decide

theorem standard_frames_le_4000 : ∀ x ∈ standard_frames, x ≤ 4000 := by
  unfold standard_frames
  decide

/-! ## Helper lemmas: cable selection -/

theorem cable_db_lookup_impedance :
    ∀ p ∈ cable_db, (alookup p.1 cable_impedance).isSome = true := by
  intro p hp
  fin_cases hp <;> norm_num [cable_impedance, alookup]

theorem cable_db_iz_pos : ∀ p ∈ cable_db, 0 < p.2 := by
  intro p hp
  fin_cases hp <;> norm_num

/-- Reduction of `cable_candidate` once the voltage drop is known. -/
theorem cable_candidate_of_vd {sqrt : K → K} {ib length pf max_vd : K} {p : ℚ × ℚ}
    {vdp : K × K} (hv : calculate_voltage_drop sqrt p.1 ib length pf = some vdp) :
    cable_candidate sqrt ib length pf max_vd p =
      if ib * 1.25 ≤ ((p.2 : ℚ) : K) then
        if vdp.2 = 0 then none
        else if vdp.2 ≤ max_vd then some ⟨p.1, p.2, vdp.1, vdp.2⟩ else none
      else none := by
  unfold cable_candidate
  rw [hv]

theorem cable_candidate_eq_some {sqrt : K → K} {ib length pf max_vd : K} {p : ℚ × ℚ}
    {c : Candidate K} :
    cable_candidate sqrt ib length pf max_vd p = some c ↔
      ib * 1.25 ≤ ((p.2 : ℚ) : K) ∧
      calculate_voltage_drop sqrt p.1 ib length pf = some (c.vd, c.vdPercent) ∧
      c.vdPercent ≠ 0 ∧ c.vdPercent ≤ max_vd ∧ c.size = p.1 ∧ c.iz = p.2 := by
  constructor
  · intro h
    cases hv : calculate_voltage_drop sqrt p.1 ib length pf with
    | none =>
      unfold cable_candidate at h
      rw [hv] at h
      by_cases ha : ib * 1.25 ≤ ((p.2 : ℚ) : K)
      · rw [if_pos ha] at h; exact absurd h (by simp)
      · rw [if_neg ha] at h; exact absurd h (by simp)
    | some vdp =>
      rw [cable_candidate_of_vd hv] at h
      by_cases ha : ib * 1.25 ≤ ((p.2 : ℚ) : K)
      · rw [if_pos ha] at h
        by_cases hz : vdp.2 = 0
        · rw [if_pos hz] at h; exact absurd h (by simp)
        · rw [if_neg hz] at h
          by_cases hm : vdp.2 ≤ max_vd
          · rw [if_pos hm] at h
            injection h with h
            subst h
            exact ⟨ha, rfl, hz, hm, rfl, rfl⟩
          · rw [if_neg hm] at h; exact absurd h (by simp)
      · rw [if_neg ha] at h; exact absurd h (by simp)
  · rintro ⟨ha, hv, hz, hm, hs, hi⟩
    rw [cable_candidate_of_vd hv, if_pos ha, if_neg hz, if_pos hm]
    obtain ⟨s, iz, vd, vdp⟩ := c
    simp only at hs hi ⊢
    subst hs; subst hi
    rfl

theorem mem_suitable_cables {sqrt : K → K} {ib length pf max_vd : K} {c : Candidate K} :
    c ∈ suitable_cables sqrt ib length pf max_vd ↔
      ∃ p ∈ cable_db, cable_candidate sqrt ib length pf max_vd p = some c := by
  unfold suitable_cables
  exact List.mem_filterMap

theorem suitable_cables_vdPercent_ne_zero {sqrt : K → K} {ib length pf max_vd : K}
    {c : Candidate K} (h : c ∈ suitable_cables sqrt ib length pf max_vd) :
    c.vdPercent ≠ 0 := by
  obtain ⟨p, -, hp⟩ := mem_suitable_cables.mp h
  exact (cable_candidate_eq_some.mp hp).2.2.1

/-- The ampacity-only filter list `current_suitable` of the fallback branch. -/
def current_suitable (ib : K) : List (ℚ × ℚ) :=
  cable_db.filter (fun p => decide (ib * 1.25 ≤ ((p.2 : ℚ) : K)))

theorem select_cable_with_vd_def (sqrt : K → K) (ib length pf max_vd : K) :
    select_cable_with_vd sqrt ib length pf max_vd =
      match min_by Candidate.size (suitable_cables sqrt ib length pf max_vd) with
      | some best => .ok best
      | none =>
        match max_by Prod.fst (current_suitable (K := K) ib) with
        | some largest =>
          match calculate_voltage_drop sqrt largest.1 ib length pf with
          | some vdp => .warn ⟨largest.1, largest.2, vdp.1, vdp.2⟩
          | none => .fault
        | none => .err "No cable found. Multiple runs required." := rfl

theorem select_eq_err_iff (sqrt : K → K) (ib length pf max_vd : K) :
    select_cable_with_vd sqrt ib length pf max_vd =
        .err "No cable found. Multiple runs required." ↔
      ∀ p ∈ cable_db, ¬ ib * 1.25 ≤ ((p.2 : ℚ) : K) := by
  rw [select_cable_with_vd_def]
  constructor
  · intro h
    cases hmin : min_by Candidate.size (suitable_cables sqrt ib length pf max_vd) with
    | some best => rw [hmin] at h; simp at h
    | none =>
      rw [hmin] at h
      dsimp only at h
      cases hmax : max_by Prod.fst (current_suitable (K := K) ib) with
      | some largest =>
        rw [hmax] at h
        dsimp only at h
        cases hv : calculate_voltage_drop sqrt largest.1 ib length pf with
        | some vdp => rw [hv] at h; simp at h
        | none => rw [hv] at h; simp at h
      | none =>
        have hnil : current_suitable (K := K) ib = [] := (max_by_eq_none _ _).mp hmax
        intro p hp hple
        have : p ∈ current_suitable (K := K) ib := by
          rw [current_suitable, List.mem_filter]
          exact ⟨hp, by simpa using hple⟩
        rw [hnil] at this
        simp at this
  · intro h
    have hcur : current_suitable (K := K) ib = [] := by
      rw [current_suitable, List.filter_eq_nil_iff]
      intro p hp
      simpa using h p hp
    have hsuit : suitable_cables sqrt ib length pf max_vd = [] := by
      rw [suitable_cables, List.filterMap_eq_nil_iff]
      intro p hp
      rw [cable_candidate, if_neg (h p hp)]
    rw [hsuit, hcur]
    rfl

/-- Under the code's own filters, a nonempty suitable list makes the selector
return the minimum-size candidate. -/
theorem select_eq_ok_of_suitable_ne_nil {sqrt : K → K} {ib length pf max_vd : K}
    (h : suitable_cables sqrt ib length pf max_vd ≠ []) :
    ∃ best, select_cable_with_vd sqrt ib length pf max_vd = .ok best ∧
      best ∈ suitable_cables sqrt ib length pf max_vd ∧
      ∀ c ∈ suitable_cables sqrt ib length pf max_vd, best.size ≤ c.size := by
  obtain ⟨m, hm, hmem, hall⟩ := min_by_spec Candidate.size h
  refine ⟨m, ?_, hmem, hall⟩
  rw [select_cable_with_vd_def, hm]

/-- When the code's filters reject everything but the ampacity filter keeps at
least one size, the selector falls back to the warning branch with the largest
ampacity-passing size and its computed drop. -/
theorem select_eq_warn_of_fallback {sqrt : K → K} {ib length pf max_vd : K}
    (h1 : suitable_cables sqrt ib length pf max_vd = [])
    (h2 : ∃ p ∈ cable_db, ib * 1.25 ≤ ((p.2 : ℚ) : K)) :
    ∃ s iz vd vdp, select_cable_with_vd sqrt ib length pf max_vd = .warn ⟨s, iz, vd, vdp⟩ ∧
      (s, iz) ∈ cable_db ∧ ib * 1.25 ≤ ((iz : ℚ) : K) ∧
      (∀ p ∈ cable_db, ib * 1.25 ≤ ((p.2 : ℚ) : K) → p.1 ≤ s) ∧
      calculate_voltage_drop sqrt s ib length pf = some (vd, vdp) := by
  have hne : current_suitable (K := K) ib ≠ [] := by
    obtain ⟨p, hp, hple⟩ := h2
    intro hnil
    have : p ∈ current_suitable (K := K) ib := by
      rw [current_suitable, List.mem_filter]
      exact ⟨hp, by simpa using hple⟩
    rw [hnil] at this
    simp at this
  obtain ⟨largest, hmax, hmem, hall⟩ := max_by_spec Prod.fst hne
  rw [current_suitable, List.mem_filter] at hmem
  obtain ⟨hmemdb, hamp⟩ := hmem
  have hlook := cable_db_lookup_impedance largest hmemdb
  obtain ⟨rx, hrx⟩ := Option.isSome_iff_exists.mp hlook
  have hv : ∃ vd vdp, calculate_voltage_drop sqrt largest.1 ib length pf = some (vd, vdp) := by
    unfold calculate_voltage_drop
    rw [hrx]
    exact ⟨_, _, rfl⟩
  obtain ⟨vd, vdp, hv⟩ := hv
  refine ⟨largest.1, largest.2, vd, vdp, ?_, hmemdb, by simpa using hamp, ?_, hv⟩
  · rw [select_cable_with_vd_def, (min_by_eq_none _ _).mpr h1]
    dsimp only
    rw [hmax]
    dsimp only
    rw [hv]
  · intro p hp hple
    exact hall p (by rw [current_suitable, List.mem_filter]; exact ⟨hp, by simpa using hple⟩)

theorem vd_percent_of_eq {sqrt : K → K} {s : ℚ} {ib length pf vd vdp : K}
    (h : calculate_voltage_drop sqrt s ib length pf = some (vd, vdp)) :
    vd_percent_of sqrt s ib length pf = vdp := by
  rw [vd_percent_of, h]
  rfl

/-! ## Helper lemmas: behaviour at zero design current -/

theorem calculate_voltage_drop_current_zero (sqrt : K → K) (s : ℚ) (length pf : K)
    (h : (alookup s cable_impedance).isSome = true) :
    calculate_voltage_drop sqrt s 0 length pf = some (0, 0) := by
  obtain ⟨rx, hrx⟩ := Option.isSome_iff_exists.mp h
  rw [calculate_voltage_drop, hrx]
  norm_num

theorem suitable_cables_current_zero (sqrt : K → K) (length pf max_vd : K) :
    suitable_cables sqrt 0 length pf max_vd = [] := by
  rw [suitable_cables, List.filterMap_eq_nil_iff]
  intro p hp
  rw [cable_candidate_of_vd
    (calculate_voltage_drop_current_zero sqrt p.1 length pf (cable_db_lookup_impedance p hp))]
  simp

theorem current_suitable_zero : current_suitable (K := K) 0 = cable_db := by
  rw [current_suitable, List.filter_eq_self]
  intro p hp
  rw [decide_eq_true_eq, zero_mul]
  exact_mod_cast le_of_lt (cable_db_iz_pos p hp)

theorem max_by_cable_db : max_by Prod.fst cable_db = some (630, 980) := by
  rw [cable_db, max_by]
  norm_num [max_step, List.foldl]

theorem select_cable_current_zero (sqrt : K → K) (length pf max_vd : K) :
    select_cable_with_vd sqrt 0 length pf max_vd =
      .warn ⟨630, 980, 0, 0⟩ := by
  rw [select_cable_with_vd_def,
    (min_by_eq_none _ _).mpr (suitable_cables_current_zero sqrt length pf max_vd)]
  dsimp only
  rw [current_suitable_zero, max_by_cable_db]
  dsimp only
  rw [calculate_voltage_drop_current_zero sqrt 630 length pf
    (cable_db_lookup_impedance (630, 980) (by norm_num [cable_db]))]

/-! ## Claim C2: breaker trip selection -/

/-- C2 (counterexample): at design current 5000 A the trip returned by
`get_at_af` is 4000, which is not a standard trip value ≥ 5000 (none exists:
the code clamps to the 4000 default instead), so the trip is not "the smallest
value of the standard trip series that is ≥ I" for every I. -/
theorem C2_counterexample :
    (get_at_af (5000 : ℚ)).1 = 4000 ∧ ¬ (5000 : ℚ) ≤ (((get_at_af (5000 : ℚ)).1 : ℚ) : ℚ) := by
  have h : get_at_af (5000 : ℚ) = (4000, 4000) := by
    norm_num [get_at_af, next_ge, standard_trips, standard_frames, List.find?]
  rw [h]
  norm_num

/-- C2 (amended): for every design current I ≤ 4000 (the largest standard
trip), the trip returned by `get_at_af` is the smallest standard trip ≥ I;
above 4000 the code clamps to the default 4000. -/
theorem C2_trip_smallest (I : K) (h : I ≤ ((4000 : ℚ) : K)) :
    (get_at_af I).1 ∈ standard_trips ∧ I ≤ (((get_at_af I).1 : ℚ) : K) ∧
      ∀ x ∈ standard_trips, I ≤ ((x : ℚ) : K) → (get_at_af I).1 ≤ x := by
  have hex : ∃ x ∈ standard_trips, I ≤ ((x : ℚ) : K) :=
    ⟨4000, by norm_num [standard_trips], h⟩
  have hs := next_ge_spec standard_trips 4000 I standard_trips_sorted hex
  simpa [get_at_af] using hs

/-- C2 witness: at I = 170 the hypothesis I ≤ 4000 holds and the amended
theorem applies. -/
theorem C2_trip_smallest_witness :
    ((170 : ℚ) ≤ ((4000 : ℚ) : ℚ)) ∧
    ((get_at_af (170 : ℚ)).1 ∈ standard_trips ∧
      (170 : ℚ) ≤ (((get_at_af (170 : ℚ)).1 : ℚ) : ℚ) ∧
      ∀ x ∈ standard_trips, (170 : ℚ) ≤ ((x : ℚ) : ℚ) → (get_at_af (170 : ℚ)).1 ≤ x) :=
  ⟨by norm_num, C2_trip_smallest 170 (by norm_num)⟩

/-! ## Claim C7: breaker classification boundaries -/

/-- C7: the breaker class is determined by the frame rating with exactly the
claimed boundaries: "ACB" iff af ≥ 800, "MCCB" iff 63 < af < 800, "MCB" iff
af ≤ 63. -/
theorem C7_classification (af : ℚ) :
    (b_type af = "ACB" ↔ 800 ≤ af) ∧ (b_type af = "MCCB" ↔ 63 < af ∧ af < 800) ∧
      (b_type af = "MCB" ↔ af ≤ 63) := by
  unfold b_type
  by_cases h8 : 800 ≤ af
  · rw [if_pos h8]
    refine ⟨⟨fun _ => h8, fun _ => rfl⟩, ⟨fun hc => ?_, fun hc => ?_⟩,
      ⟨fun hc => ?_, fun hc => ?_⟩⟩
    · exact absurd hc (by simp)
    · linarith [hc.2]
    · exact absurd hc (by simp)
    · linarith
  · rw [if_neg h8]
    by_cases h63 : 63 < af
    · rw [if_pos h63]
      refine ⟨⟨fun hc => ?_, fun hc => ?_⟩, ⟨fun _ => ⟨h63, lt_of_not_le h8⟩, fun _ => rfl⟩,
        ⟨fun hc => ?_, fun hc => ?_⟩⟩
      · exact absurd hc (by simp)
      · exact absurd hc h8
      · exact absurd hc (by simp)
      · linarith
    · rw [if_neg h63]
      refine ⟨⟨fun hc => ?_, fun hc => ?_⟩, ⟨fun hc => ?_, fun hc => ?_⟩,
        ⟨fun _ => le_of_not_lt h63, fun _ => rfl⟩⟩
      · exact absurd hc (by simp)
      · exact absurd hc h8
      · exact absurd hc (by simp)
      · exact absurd hc.1 h63

/-! ## Claim C8: breaker selection monotone in design current -/

/-- C8: breaker selection is monotonic in design current: I1 ≤ I2 implies both
the trip and the frame returned by `get_at_af` are ≤ those for I2. -/
theorem C8_monotone (I1 I2 : K) (h : I1 ≤ I2) :
    (get_at_af I1).1 ≤ (get_at_af I2).1 ∧ (get_at_af I1).2 ≤ (get_at_af I2).2 := by
  have ht := next_ge_mono standard_trips 4000 standard_trips_sorted
    standard_trips_le_4000 I1 I2 h
  have hf := next_ge_mono standard_frames 4000 standard_frames_sorted
    standard_frames_le_4000 (K := ℚ) (next_ge standard_trips 4000 I1)
    (next_ge standard_trips 4000 I2) ht
  exact ⟨ht, hf⟩

/-- C8 witness: at I1 = 100 ≤ I2 = 170 the monotonicity theorem applies. -/
theorem C8_monotone_witness :
    ((100 : ℚ) ≤ (170 : ℚ)) ∧
    ((get_at_af (100 : ℚ)).1 ≤ (get_at_af (170 : ℚ)).1 ∧
      (get_at_af (100 : ℚ)).2 ≤ (get_at_af (170 : ℚ)).2) :=
  ⟨by norm_num, C8_monotone 100 170 (by norm_num)⟩

/-! ## Claim C6: NoSuitableCable iff ampacity filter empty -/

/-- C6: the selector returns the NoSuitableCable error iff no catalog size has
ampacity ≥ 1.25·ib; every catalog ampacity is ≤ 980, and at ib = 5000 (so
1.25·ib = 6250 > 980) the error is returned. -/
theorem C6_no_suitable_cable (sqrt : K → K) (ib length pf max_vd : K) :
    (select_cable_with_vd sqrt ib length pf max_vd =
        .err "No cable found. Multiple runs required." ↔
      ∀ p ∈ cable_db, ¬ ib * 1.25 ≤ ((p.2 : ℚ) : K)) ∧
    (∀ p ∈ cable_db, p.2 ≤ 980) ∧
    (ib = 5000 → select_cable_with_vd sqrt ib length pf max_vd =
        .err "No cable found. Multiple runs required.") := by
  refine ⟨select_eq_err_iff sqrt ib length pf max_vd, ?_, fun hib => ?_⟩
  · intro p hp
    fin_cases hp <;> norm_num
  · subst hib
    rw [select_eq_err_iff]
    intro p hp
    fin_cases hp <;> push_cast <;> norm_num

/-- C6 witness: at ib = 5000 (with length 50, pf 0.85, limit 4, over ℚ with the
identity standing in for sqrt) the selector returns the error outcome. -/
theorem C6_no_suitable_cable_witness :
    ((5000 : ℚ) = 5000) ∧
    select_cable_with_vd (id : ℚ → ℚ) 5000 50 0.85 4 =
      .err "No cable found. Multiple runs required." :=
  ⟨rfl, (C6_no_suitable_cable (id : ℚ → ℚ) 5000 50 0.85 4).2.2 rfl⟩

/-! ## Claim C5: fallback to largest ampacity-passing size with warning -/

/-- C5: when no catalog size passes both filters (ampacity ≥ 1.25·ib and
computed drop percent ≤ the limit) but at least one passes the ampacity
filter, the selector returns — rather than failing — the largest
ampacity-passing size, with that size's computed voltage drop and the
voltage-drop warning tag. -/
theorem C5_fallback (sqrt : K → K) (ib length pf max_vd : K)
    (h1 : ∀ p ∈ cable_db, ¬ (ib * 1.25 ≤ ((p.2 : ℚ) : K) ∧
        vd_percent_of sqrt p.1 ib length pf ≤ max_vd))
    (h2 : ∃ p ∈ cable_db, ib * 1.25 ≤ ((p.2 : ℚ) : K)) :
    ∃ s iz vd vdp, select_cable_with_vd sqrt ib length pf max_vd = .warn ⟨s, iz, vd, vdp⟩ ∧
      (s, iz) ∈ cable_db ∧ ib * 1.25 ≤ ((iz : ℚ) : K) ∧
      (∀ p ∈ cable_db, ib * 1.25 ≤ ((p.2 : ℚ) : K) → p.1 ≤ s) ∧
      calculate_voltage_drop sqrt s ib length pf = some (vd, vdp) := by
  have hs : suitable_cables sqrt ib length pf max_vd = [] := by
    rw [suitable_cables, List.filterMap_eq_nil_iff]
    intro p hp
    cases hc : cable_candidate sqrt ib length pf max_vd p with
    | none => rfl
    | some c =>
      obtain ⟨ha, hv, hz, hm, -, -⟩ := cable_candidate_eq_some.mp hc
      exact absurd ⟨ha, by rw [vd_percent_of_eq hv]; exact hm⟩ (h1 p hp)
  exact select_eq_warn_of_fallback hs h2

/-- C5 witness: ib = 100, length = 1000000 m, pf = 1, limit 4 % (over ℚ, with
the identity for sqrt): every size fails the drop filter, many pass ampacity,
and the selector falls back with a warning. -/
theorem C5_fallback_witness :
    (∀ p ∈ cable_db, ¬ ((100 : ℚ) * 1.25 ≤ ((p.2 : ℚ) : ℚ) ∧
        vd_percent_of (id : ℚ → ℚ) p.1 100 1000000 1 ≤ 4)) ∧
    (∃ p ∈ cable_db, (100 : ℚ) * 1.25 ≤ ((p.2 : ℚ) : ℚ)) ∧
    (∃ s iz vd vdp,
      select_cable_with_vd (id : ℚ → ℚ) 100 1000000 1 4 = .warn ⟨s, iz, vd, vdp⟩ ∧
      (s, iz) ∈ cable_db ∧ (100 : ℚ) * 1.25 ≤ ((iz : ℚ) : ℚ) ∧
      (∀ p ∈ cable_db, (100 : ℚ) * 1.25 ≤ ((p.2 : ℚ) : ℚ) → p.1 ≤ s) ∧
      calculate_voltage_drop (id : ℚ → ℚ) s 100 1000000 1 = some (vd, vdp)) := by
  have h1 : ∀ p ∈ cable_db, ¬ ((100 : ℚ) * 1.25 ≤ ((p.2 : ℚ) : ℚ) ∧
      vd_percent_of (id : ℚ → ℚ) p.1 100 1000000 1 ≤ 4) := by
    intro p hp
    fin_cases hp <;>
      norm_num [vd_percent_of, calculate_voltage_drop, alookup, cable_impedance]
  have h2 : ∃ p ∈ cable_db, (100 : ℚ) * 1.25 ≤ ((p.2 : ℚ) : ℚ) :=
    ⟨(25, 135), by norm_num [cable_db], by norm_num⟩
  exact ⟨h1, h2, C5_fallback (id : ℚ → ℚ) 100 1000000 1 4 h1 h2⟩

/-! ## Claim C10: truthiness rejection of zero voltage drop -/

/-- C10: the voltage-drop filter tests the percent for truthiness, so a
candidate whose computed percent is exactly 0 is rejected; consequently at
ib = 0 (where every drop is 0) every size passes the ampacity filter, the
suitable list is empty, and the selector returns the largest catalog size
630 mm² tagged with a warning instead of the smallest compliant size. -/
theorem C10_truthiness_rejection (sqrt : K → K) (ib length pf max_vd : K) :
    (∀ p ∈ cable_db, vd_percent_of sqrt p.1 ib length pf = 0 →
      cable_candidate sqrt ib length pf max_vd p = none) ∧
    (∀ c ∈ suitable_cables sqrt ib length pf max_vd, c.vdPercent ≠ 0) ∧
    current_suitable (K := K) 0 = cable_db ∧
    suitable_cables sqrt 0 length pf max_vd = [] ∧
    select_cable_with_vd sqrt 0 length pf max_vd = .warn ⟨630, 980, 0, 0⟩ := by
  refine ⟨?_, fun c hc => suitable_cables_vdPercent_ne_zero hc, current_suitable_zero,
    suitable_cables_current_zero sqrt length pf max_vd,
    select_cable_current_zero sqrt length pf max_vd⟩
  intro p hp h0
  cases hc : cable_candidate sqrt ib length pf max_vd p with
  | none => rfl
  | some c =>
    obtain ⟨-, hv, hz, -, -, -⟩ := cable_candidate_eq_some.mp hc
    rw [vd_percent_of_eq hv] at h0
    exact absurd h0 hz

/-- C10 witness: the theorem instantiated at ib = 0, length 50, pf 0.85,
limit 4 over ℚ with the identity for sqrt. -/
theorem C10_truthiness_rejection_witness :
    (∀ p ∈ cable_db, vd_percent_of (id : ℚ → ℚ) p.1 0 50 0.85 = 0 →
      cable_candidate (id : ℚ → ℚ) 0 50 0.85 4 p = none) ∧
    (∀ c ∈ suitable_cables (id : ℚ → ℚ) 0 50 0.85 4, c.vdPercent ≠ 0) ∧
    current_suitable (K := ℚ) 0 = cable_db ∧
    suitable_cables (id : ℚ → ℚ) 0 50 0.85 4 = [] ∧
    select_cable_with_vd (id : ℚ → ℚ) 0 50 0.85 4 = .warn ⟨630, 980, 0, 0⟩ :=
  C10_truthiness_rejection (id : ℚ → ℚ) 0 50 0.85 4

/-! ## Claim C1: smallest size passing both filters -/

/-- C1 (counterexample): at ib = 0 (length 50, pf 0.85, limit 4 %) the size
1.5 mm² passes both of the claim's filters (ampacity 25 ≥ 1.25·0 and computed
drop percent 0 ≤ 4), yet the selector does not return a warning-free smallest
passing size: it returns the 630 mm² fallback tagged with a warning, because
the truthiness test rejects the exact-zero percent. -/
theorem C1_counterexample :
    (((1.5 : ℚ), (25 : ℚ)) ∈ cable_db ∧ (0 : ℝ) * 1.25 ≤ (((25 : ℚ) : ℚ) : ℝ) ∧
      vd_percent_of Real.sqrt 1.5 (0 : ℝ) 50 0.85 ≤ 4) ∧
    select_cable_with_vd Real.sqrt (0 : ℝ) 50 0.85 4 = .warn ⟨630, 980, 0, 0⟩ := by
  refine ⟨⟨by norm_num [cable_db], by norm_num, ?_⟩,
    select_cable_current_zero Real.sqrt 50 0.85 4⟩
  rw [vd_percent_of_eq (calculate_voltage_drop_current_zero Real.sqrt 1.5 50 0.85
    (by norm_num [alookup, cable_impedance]))]
  norm_num

/-- C1 (amended): whenever at least one catalog size passes the ampacity
filter with a nonzero computed drop percent ≤ the limit, the selector returns
(with no warning and no error) the smallest such size, and the returned
candidate passes both filters. -/
theorem C1_smallest_compliant (sqrt : K → K) (ib length pf max_vd : K)
    (h : ∃ p ∈ cable_db, ib * 1.25 ≤ ((p.2 : ℚ) : K) ∧
        vd_percent_of sqrt p.1 ib length pf ≠ 0 ∧
        vd_percent_of sqrt p.1 ib length pf ≤ max_vd) :
    ∃ c : Candidate K, select_cable_with_vd sqrt ib length pf max_vd = .ok c ∧
      (c.size, c.iz) ∈ cable_db ∧ ib * 1.25 ≤ ((c.iz : ℚ) : K) ∧
      c.vdPercent = vd_percent_of sqrt c.size ib length pf ∧ c.vdPercent ≤ max_vd ∧
      ∀ p ∈ cable_db, (ib * 1.25 ≤ ((p.2 : ℚ) : K) ∧
          vd_percent_of sqrt p.1 ib length pf ≠ 0 ∧
          vd_percent_of sqrt p.1 ib length pf ≤ max_vd) → c.size ≤ p.1 := by
  have hcand : ∀ p ∈ cable_db, (ib * 1.25 ≤ ((p.2 : ℚ) : K) ∧
      vd_percent_of sqrt p.1 ib length pf ≠ 0 ∧
      vd_percent_of sqrt p.1 ib length pf ≤ max_vd) →
      ∃ c, cable_candidate sqrt ib length pf max_vd p = some c ∧ c.size = p.1 := by
    rintro p hp ⟨ha, hz, hm⟩
    obtain ⟨rx, hrx⟩ := Option.isSome_iff_exists.mp (cable_db_lookup_impedance p hp)
    have hv : ∃ vd vdp, calculate_voltage_drop sqrt p.1 ib length pf = some (vd, vdp) := by
      rw [calculate_voltage_drop, hrx]
      exact ⟨_, _, rfl⟩
    obtain ⟨vd, vdp, hv⟩ := hv
    have hvdp := vd_percent_of_eq hv
    rw [hvdp] at hz hm
    exact ⟨⟨p.1, p.2, vd, vdp⟩, cable_candidate_eq_some.mpr ⟨ha, hv, hz, hm, rfl, rfl⟩, rfl⟩
  obtain ⟨p0, hp0, hpass0⟩ := h
  obtain ⟨c0, hc0, -⟩ := hcand p0 hp0 hpass0
  have hne : suitable_cables sqrt ib length pf max_vd ≠ [] :=
    List.ne_nil_of_mem (mem_suitable_cables.mpr ⟨p0, hp0, hc0⟩)
  obtain ⟨best, hsel, hbmem, hmin⟩ := select_eq_ok_of_suitable_ne_nil hne
  obtain ⟨q, hq, hcq⟩ := mem_suitable_cables.mp hbmem
  obtain ⟨haq, hvq, hzq, hmq, hsq, hiq⟩ := cable_candidate_eq_some.mp hcq
  refine ⟨best, hsel, ?_, ?_, ?_, hmq, ?_⟩
  · rw [hsq, hiq]
    exact hq
  · rw [hiq]
    exact haq
  · rw [hsq]
    exact (vd_percent_of_eq hvq).symm
  · intro p hp hpass
    obtain ⟨cp, hcp, hcs⟩ := hcand p hp hpass
    have := hmin cp (mem_suitable_cables.mpr ⟨p, hp, hcp⟩)
    rw [hcs] at this
    exact this

/-- C1 witness: over ℚ (identity for sqrt) at ib = 1, length 1, pf 1,
limit 100 the hypothesis holds (size 1.5 passes with nonzero percent). -/
theorem C1_smallest_compliant_witness :
    (∃ p ∈ cable_db, (1 : ℚ) * 1.25 ≤ ((p.2 : ℚ) : ℚ) ∧
        vd_percent_of (id : ℚ → ℚ) p.1 1 1 1 ≠ 0 ∧
        vd_percent_of (id : ℚ → ℚ) p.1 1 1 1 ≤ 100) ∧
    (∃ c : Candidate ℚ, select_cable_with_vd (id : ℚ → ℚ) 1 1 1 100 = .ok c ∧
      (c.size, c.iz) ∈ cable_db ∧ (1 : ℚ) * 1.25 ≤ ((c.iz : ℚ) : ℚ) ∧
      c.vdPercent = vd_percent_of (id : ℚ → ℚ) c.size 1 1 1 ∧ c.vdPercent ≤ 100 ∧
      ∀ p ∈ cable_db, ((1 : ℚ) * 1.25 ≤ ((p.2 : ℚ) : ℚ) ∧
          vd_percent_of (id : ℚ → ℚ) p.1 1 1 1 ≠ 0 ∧
          vd_percent_of (id : ℚ → ℚ) p.1 1 1 1 ≤ 100) → c.size ≤ p.1) := by
  have h : ∃ p ∈ cable_db, (1 : ℚ) * 1.25 ≤ ((p.2 : ℚ) : ℚ) ∧
      vd_percent_of (id : ℚ → ℚ) p.1 1 1 1 ≠ 0 ∧
      vd_percent_of (id : ℚ → ℚ) p.1 1 1 1 ≤ 100 := by
    refine ⟨(1.5, 25), by norm_num [cable_db], by norm_num, ?_, ?_⟩ <;>
      norm_num [vd_percent_of, calculate_voltage_drop, alookup, cable_impedance]
  exact ⟨h, C1_smallest_compliant (id : ℚ → ℚ) 1 1 1 100 h⟩

/-! ## Claim C3: voltage-drop percentage reference voltage -/

/-- Modelled from the spec's words, for refinement comparison with the source:
the spec's step 2 takes `systemVoltage` as an explicit parameter and computes
`dropPercent = dropV/systemVoltage·100`; `dropV` is as in the source. -/
def calculate_voltage_drop_spec (sqrt : K → K) (cable_size : ℚ)
    (current length pf systemVoltage : K) : Option (K × K) :=
  match alookup cable_size cable_impedance with
  | none => none
  | some rx =>
    let sin_phi := sqrt (1 - pf ^ 2)
    let v_drop_per_km := sqrt 3 * current * ((rx.1 : K) * pf + (rx.2 : K) * sin_phi)
    let v_drop := v_drop_per_km * length / 1000
    some (v_drop, v_drop / systemVoltage * 100)

/-- C3 (counterexample): the source computes the percentage against the
hard-coded 400 V reference and takes no systemVoltage parameter: at size 70,
I = 100 A, L = 50 m, PF = 0.85 its result differs from the spec's
systemVoltage-parametric formula evaluated at 230 V. -/
theorem C3_counterexample :
    calculate_voltage_drop Real.sqrt 70 100 50 0.85 ≠
      calculate_voltage_drop_spec Real.sqrt 70 100 50 0.85 230 := by
  have hlook : alookup (70 : ℚ) cable_impedance = some (0.328, 0.095) := by
    norm_num [alookup, cable_impedance]
  rw [calculate_voltage_drop, calculate_voltage_drop_spec, hlook]
  dsimp only
  intro h
  rw [Option.some.injEq, Prod.mk.injEq] at h
  obtain ⟨-, h2⟩ := h
  push_cast at h2
  have h3 : (0 : ℝ) < Real.sqrt 3 := Real.sqrt_pos.mpr (by norm_num)
  have h4 : (0 : ℝ) ≤ Real.sqrt (1 - (0.85 : ℝ) ^ 2) := Real.sqrt_nonneg _
  nlinarith [h2, h3, h4, mul_nonneg h3.le h4]

/-- C3 (amended): for every size in the impedance table, `dropV` follows the
claimed formula, but the percentage is `dropV/400·100` with the 400 V
reference hard-coded: the function takes no systemVoltage parameter and agrees
with the spec formula exactly when systemVoltage = 400. -/
theorem C3_formula (sqrt : K → K) (cable_size : ℚ) (current length pf : K) (r x : ℚ)
    (h : alookup cable_size cable_impedance = some (r, x)) :
    calculate_voltage_drop sqrt cable_size current length pf =
      some (sqrt 3 * current * ((r : K) * pf + (x : K) * sqrt (1 - pf ^ 2)) * length / 1000,
        sqrt 3 * current * ((r : K) * pf + (x : K) * sqrt (1 - pf ^ 2)) * length / 1000
          / 400 * 100) ∧
    calculate_voltage_drop sqrt cable_size current length pf =
      calculate_voltage_drop_spec sqrt cable_size current length pf 400 := by
  constructor
  · rw [calculate_voltage_drop, h]
  · rw [calculate_voltage_drop, calculate_voltage_drop_spec, h]

/-- C3 witness: the amended formula instantiated at size 70 over ℚ with the
identity for sqrt. -/
theorem C3_formula_witness :
    (alookup (70 : ℚ) cable_impedance = some (0.328, 0.095)) ∧
    (calculate_voltage_drop (id : ℚ → ℚ) 70 100 50 0.85 =
      some (id 3 * 100 * (((0.328 : ℚ) : ℚ) * 0.85 + ((0.095 : ℚ) : ℚ) * id (1 - 0.85 ^ 2))
          * 50 / 1000,
        id 3 * 100 * (((0.328 : ℚ) : ℚ) * 0.85 + ((0.095 : ℚ) : ℚ) * id (1 - 0.85 ^ 2))
          * 50 / 1000 / 400 * 100) ∧
     calculate_voltage_drop (id : ℚ → ℚ) 70 100 50 0.85 =
      calculate_voltage_drop_spec (id : ℚ → ℚ) 70 100 50 0.85 400) := by
  have h : alookup (70 : ℚ) cable_impedance = some (0.328, 0.095) := by
    norm_num [alookup, cable_impedance]
  exact ⟨h, C3_formula (id : ℚ → ℚ) 70 100 50 0.85 0.328 0.095 h⟩

/-! ## Claim C4: design-current parameter validation -/

/-- C4 (counterexample): at powerFactor 0 the source design-current
computation raises an uncontrolled ZeroDivisionError (modelled by `none`)
rather than a value-level InvalidParameter outcome, and at powerFactor 2
(outside (0,1]) it silently returns a numeric value. -/
theorem C4_counterexample :
    msb_design_current Real.sqrt 100 0 = none ∧
    msb_design_current Real.sqrt 100 2 = some (100 * 1000 / (Real.sqrt 3 * 400 * 2)) := by
  constructor
  · rw [msb_design_current, if_pos (mul_zero _)]
  · rw [msb_design_current, if_neg (by positivity)]

/-- C4 (amended): the source computation `ib = P·1000/(√3·400·pf)` validates
nothing: it faults (division by zero) exactly when pf = 0, and for every other
pf — including values outside (0,1] — and for every power (including negative)
it returns the plain numeric value; no InvalidParameter outcome exists. -/
theorem C4_no_validation (P pf : ℝ) :
    (msb_design_current Real.sqrt P pf = none ↔ pf = 0) ∧
    (pf ≠ 0 →
      msb_design_current Real.sqrt P pf = some (P * 1000 / (Real.sqrt 3 * 400 * pf))) := by
  have hsn : Real.sqrt 3 * 400 ≠ 0 := by positivity
  have hden : Real.sqrt 3 * 400 * pf = 0 ↔ pf = 0 := by
    rw [mul_eq_zero]
    simp [hsn]
  constructor
  · by_cases h : pf = 0
    · subst h
      rw [msb_design_current, if_pos (mul_zero _)]
      simp
    · rw [msb_design_current, if_neg (fun hc => h (hden.mp hc))]
      simp [h]
  · intro h
    rw [msb_design_current, if_neg (fun hc => h (hden.mp hc))]

/-- C4 witness: at P = -5 (negative power) and pf = 2 (outside (0,1]) the
amended theorem yields the numeric value. -/
theorem C4_no_validation_witness :
    ((2 : ℝ) ≠ 0) ∧
    msb_design_current Real.sqrt (-5) 2 = some ((-5) * 1000 / (Real.sqrt 3 * 400 * 2)) :=
  ⟨by norm_num, (C4_no_validation (-5) 2).2 (by norm_num)⟩

/-! ## Claim C9: tray containment sizing (Scenario C) -/

/-- C9: tray sizing (the sizing routine is modelled from the spec; the source
holds only the fill-factor and standard-width tables): requiredWidth =
totalAreaWithSpare/(depthMm·fillFactor), the first standard width ≥
requiredWidth is selected, and for five 50 mm² cables (diameter 27 mm) in a
perforated tray (fill 0.4) of depth 50 with 25 % spare: totalArea ≈ 2863 mm²,
withSpare ≈ 3579 mm², requiredWidth ≈ 179 mm, selected width 200 mm. The
bounds on `pi` are discharged by `Real.pi` in the witness. -/
theorem C9_tray_scenario (pi : K) (h1 : (3.1415 : K) ≤ pi) (h2 : pi ≤ (3.1417 : K)) :
    ∃ r : TrayResult K,
      sizeTrayContainment pi [50, 50, 50, 50, 50] "perforated" 25 50 = some r ∧
      r.totalAreaWithSpare = r.totalArea * (1 + 25 / 100) ∧
      r.requiredWidth = r.totalAreaWithSpare / (50 * ((0.4 : ℚ) : K)) ∧
      |r.totalArea - 2863| < 1 ∧ |r.totalAreaWithSpare - 3579| < 1 ∧
      |r.requiredWidth - 179| < 1 ∧ r.selectedWidth = some 200 := by
  have hff : alookup "perforated" tray_fill_factors = some 0.4 := by
    norm_num [alookup, tray_fill_factors]
  have hds : (([50, 50, 50, 50, 50] : List ℚ).mapM (fun s => alookup s cable_diameters)) =
      some [27, 27, 27, 27, 27] := by
    norm_num [alookup, cable_diameters, List.mapM, List.mapM.loop]
  have hsz : sizeTrayContainment pi [50, 50, 50, 50, 50] "perforated" 25 50 =
      some ⟨(([27, 27, 27, 27, 27] : List ℚ).map (fun d => pi * (((d : ℚ) : K) / 2) ^ 2)).sum,
        (([27, 27, 27, 27, 27] : List ℚ).map (fun d => pi * (((d : ℚ) : K) / 2) ^ 2)).sum
          * (1 + 25 / 100),
        (([27, 27, 27, 27, 27] : List ℚ).map (fun d => pi * (((d : ℚ) : K) / 2) ^ 2)).sum
          * (1 + 25 / 100) / (50 * ((0.4 : ℚ) : K)),
        standard_tray_sizes.find? (fun w => decide (
          (([27, 27, 27, 27, 27] : List ℚ).map (fun d => pi * (((d : ℚ) : K) / 2) ^ 2)).sum
            * (1 + 25 / 100) / (50 * ((0.4 : ℚ) : K)) ≤ ((w : ℚ) : K)))⟩ := by
    rw [sizeTrayContainment, hff, hds]
  have hTA : (([27, 27, 27, 27, 27] : List ℚ).map
      (fun d => pi * (((d : ℚ) : K) / 2) ^ 2)).sum = pi * (3645 / 4 : K) := by
    simp only [List.map_cons, List.map_nil, List.sum_cons, List.sum_nil]
    push_cast
    ring
  have hW : (([27, 27, 27, 27, 27] : List ℚ).map
        (fun d => pi * (((d : ℚ) : K) / 2) ^ 2)).sum * (1 + 25 / 100) / (50 * ((0.4 : ℚ) : K)) =
      pi * (18225 / 320 : K) := by
    rw [hTA]
    push_cast
    ring
  have hfind : standard_tray_sizes.find? (fun w => decide (
      (([27, 27, 27, 27, 27] : List ℚ).map (fun d => pi * (((d : ℚ) : K) / 2) ^ 2)).sum
        * (1 + 25 / 100) / (50 * ((0.4 : ℚ) : K)) ≤ ((w : ℚ) : K))) = some 200 := by
    rw [standard_tray_sizes]
    rw [List.find?_cons_of_neg _ (by
        simp only [decide_eq_true_eq, not_le, hW]
        push_cast
        nlinarith),
      List.find?_cons_of_neg _ (by
        simp only [decide_eq_true_eq, not_le, hW]
        push_cast
        nlinarith),
      List.find?_cons_of_neg _ (by
        simp only [decide_eq_true_eq, not_le, hW]
        push_cast
        nlinarith),
      List.find?_cons_of_pos _ (by
        simp only [decide_eq_true_eq, hW]
        push_cast
        nlinarith)]
  refine ⟨_, hsz, rfl, rfl, ?_, ?_, ?_, hfind⟩
  · rw [hTA, abs_lt]
    constructor <;> nlinarith
  · rw [hTA, abs_lt]
    constructor <;> nlinarith
  · rw [hW, abs_lt]
    constructor <;> nlinarith

/-- C9 witness: `Real.pi` satisfies the bounds 3.1415 ≤ π ≤ 3.1417 and the
tray-sizing theorem applies. -/
theorem C9_tray_scenario_witness :
    ((3.1415 : ℝ) ≤ Real.pi ∧ Real.pi ≤ (3.1417 : ℝ)) ∧
    (∃ r : TrayResult ℝ,
      sizeTrayContainment Real.pi [50, 50, 50, 50, 50] "perforated" 25 50 = some r ∧
      r.totalAreaWithSpare = r.totalArea * (1 + 25 / 100) ∧
      r.requiredWidth = r.totalAreaWithSpare / (50 * ((0.4 : ℚ) : ℝ)) ∧
      |r.totalArea - 2863| < 1 ∧ |r.totalAreaWithSpare - 3579| < 1 ∧
      |r.requiredWidth - 179| < 1 ∧ r.selectedWidth = some 200) := by
  have h1 : (3.1415 : ℝ) ≤ Real.pi := by
    have := Real.pi_gt_d6
    linarith
  have h2 : Real.pi ≤ (3.1417 : ℝ) := by
    have := Real.pi_lt_d6
    linarith
  exact ⟨⟨h1, h2⟩, C9_tray_scenario Real.pi h1 h2⟩

end SGPro
